import Mathlib

/-!
Formalization of the membrane elasticity plugin
(src/plugin/elasticity/membrane.cc, namespace mujoco::plugin::elasticity).

Machine numbers (mjtNum) are modelled as rationals. Square roots do not
exist in ℚ, so the two square-root-producing helpers of the engine are kept
as explicit inputs: the triangle area (output of ComputeVolume, line 37-47)
and the unit normal produced by mju_normalize3 inside ComputeBasis
(line 60). Every statement quantifies over those inputs, so it covers the
values the C code actually produces.

Helpers that membrane.cc calls but that live in elasticity.h / elasticity.cc
(MetricTensor, ComputeForce, CheckAttr, the Stencil2D table) are not part of
the sources; they are modelled from the design document and are marked
`Modelled from the spec:` in their doc comments.
-/

namespace Membrane

/-- A 3-vector of machine numbers (mjtNum[3]). -/
abbrev Vec3 : Type := Fin 3 → ℚ

/-- mju_sub3: componentwise difference of two 3-vectors. -/
def mju_sub3 (a b : Vec3) : Vec3 := fun i => a i - b i

/-- mju_cross: the cross product of two 3-vectors. -/
def mju_cross (a b : Vec3) : Vec3 :=
  fun i =>
    if i = 0 then a 1 * b 2 - a 2 * b 1
    else if i = 1 then a 2 * b 0 - a 0 * b 2
    else a 0 * b 1 - a 1 * b 0

/-- Embeds ComputeBasis (membrane.cc lines 50-75), after the edge vectors
have been formed.  The source computes `normal = cross(edgesR, edgesL)` and
normalizes it in place with mju_normalize3 (a square-root rescaling); here
the post-normalization normal is the explicit argument `normal`.  The basis
entry (i,j) is the symmetrized product of
`basisL = cross(normal, edgesL)` and `basisR = cross(edgesR, normal)`,
scaled by 1/(8·area²), exactly as in lines 69-74. -/
def ComputeBasis (normal edgesL edgesR : Vec3) (area : ℚ) : Fin 3 → Fin 3 → ℚ :=
  fun i j =>
    (mju_cross normal edgesL i * mju_cross edgesR normal j +
     mju_cross edgesR normal i * mju_cross normal edgesL j) / (8 * area * area)

/-- Embeds the call sites of ComputeBasis (lines 56-57): the two edge
vectors are differences of the vertex positions selected by the stencil
rows `faceL` and `faceR` (with the index order the source uses:
`x[v[faceL[0]]] − x[v[faceL[1]]]` and `x[v[faceR[1]]] − x[v[faceR[0]]]`). -/
def ComputeBasisGeom (x : ℕ → Vec3) (v : Fin 3 → ℕ) (faceL faceR : Fin 2 → Fin 3)
    (normal : Vec3) (area : ℚ) : Fin 3 → Fin 3 → ℚ :=
  ComputeBasis normal
    (mju_sub3 (x (v (faceL 0))) (x (v (faceL 1))))
    (mju_sub3 (x (v (faceR 1))) (x (v (faceR 0))))
    area

/-- The shear coefficient of line 139:
`mu = E / (2*(1+nu)) * |volume| / 4 * thickness`. -/
def mu (E nu volume thickness : ℚ) : ℚ :=
  E / (2 * (1 + nu)) * |volume| / 4 * thickness

/-- The dilation coefficient of line 140:
`la = E*nu / ((1+nu)*(1-2*nu)) * |volume| / 4 * thickness`. -/
def la (E nu volume thickness : ℚ) : ℚ :=
  E * nu / ((1 + nu) * (1 - 2 * nu)) * |volume| / 4 * thickness

/-- Modelled from the spec: the Stencil2D edge table (declared in
elasticity.h, not among the sources).  The spec says the stencil maps every
local edge to the pair of the two `other` local edges forming its basis
pair, and the same table doubles as the per-edge vertex pairs; so row e
lists the two local indices other than e, in cyclic order. -/
def stencilEdge : Fin 3 → Fin 2 → Fin 3 :=
  fun e p => if p = 0 then e + 1 else e + 2

/-- Modelled from the spec: MetricTensor (declared in elasticity.h, not
among the sources) assembles the element stiffness tensor as a bilinear
combination of all edge-pair basis tensors weighted by mu and la; the
unique entry for an edge pair is
`mu * ⟨B1, B2⟩ + la * tr(B1) * tr(B2)`,
with ⟨·,·⟩ the full tensor contraction and tr the trace. -/
def metricEntry (m l : ℚ) (b1 b2 : Fin 3 → Fin 3 → ℚ) : ℚ :=
  m * (∑ i : Fin 3, ∑ j : Fin 3, b1 i j * b2 j i) +
  l * (∑ i : Fin 3, b1 i i) * (∑ j : Fin 3, b2 j j)

/-- The basis tensor of local edge e computed in lines 146-150: the stencil
is consulted twice, `faceL = edge[edge[e][0]]`, `faceR = edge[edge[e][1]]`. -/
def elemBasis (x : ℕ → Vec3) (v : Fin 3 → ℕ) (normals : Fin 3 → Vec3)
    (volume : ℚ) (e : Fin 3) : Fin 3 → Fin 3 → ℚ :=
  ComputeBasisGeom x v
    (stencilEdge (stencilEdge e 0))
    (stencilEdge (stencilEdge e 1))
    (normals e) volume

/-- The part of the mjModel/flex tables the constructor scan reads:
`body_plugin[b]` (the plugin instance attached to body b, −1 when none) and
the vertex-to-body map `flex_vertbodyid` of the flex, here `vertbody`. -/
structure FlexModel where
  body_plugin : ℕ → Int
  vertbody : ℕ → ℕ

/-- The per-triangle vertex scan of lines 128-133: mju_error aborts
construction when some vertex v[i] has a nonzero body id `bi` with
`body_plugin[bi] != instance`; the scan passes (returns true) otherwise. -/
def elemScanOk (m : FlexModel) (inst : Int) (v : Fin 3 → ℕ) : Bool :=
  decide (∀ i : Fin 3,
    m.vertbody (v i) = 0 ∨ m.body_plugin (m.vertbody (v i)) = inst)

/-- One iteration of the constructor triangle loop (lines 126-156): first
the vertex scan, then area, mu, la, the edge bases and the metric tensor.
An abort by mju_error is modelled as `none`: no stiffness tensor for the
element is produced.  `volume` and `normals` stand for the outputs of
ComputeVolume and mju_normalize3 (square roots, see the file comment). -/
def processElem (m : FlexModel) (inst : Int) (v : Fin 3 → ℕ) (x : ℕ → Vec3)
    (normals : Fin 3 → Vec3) (volume : ℚ) (E nu thickness : ℚ) :
    Option (Fin 3 → Fin 3 → ℚ) :=
  if elemScanOk m inst v then
    some fun e1 e2 =>
      metricEntry (mu E nu volume thickness) (la E nu volume thickness)
        (elemBasis x v normals volume e1) (elemBasis x v normals volume e2)
  else none

/-- Modelled from the spec: the attribute intake contract (mj_getPluginConfig
and CheckAttr live outside the sources).  An attribute's configured value is
`none` when the attribute is missing, `some none` when present but not
parseable as a number, and `some (some q)` when it parses to q. -/
def Config : Type := String → Option (Option ℚ)

/-- Modelled from the spec: CheckAttr (elasticity.h/cc, not among the
sources) returns true exactly when the named attribute is present and
parses as a floating-point number. -/
def CheckAttr (name : String) (cfg : Config) : Bool :=
  match cfg name with
  | some (some _) => true
  | _ => false

/-- The value strtod extracts for an attribute (lines 84-89): a missing
attribute reads as the empty string, and strtod yields 0 on a missing or
unparseable value. -/
def attrNum (name : String) (cfg : Config) : ℚ :=
  match cfg name with
  | some (some q) => q
  | _ => 0

/-- The material parameters the constructor receives (line 90,
`Membrane(m, d, instance, nu, E, thick, damp)`). -/
structure MembraneParams where
  nu : ℚ
  E : ℚ
  thickness : ℚ
  damping : ℚ

/-- Membrane::Create (lines 80-95): constructs the plugin only when
CheckAttr succeeds for "face", "poisson", "young" and "thickness";
otherwise it warns and returns nullopt.  The numeric values, including
"damping", are read with strtod without any further validation. -/
def Create (cfg : Config) : Option MembraneParams :=
  if CheckAttr "face" cfg && CheckAttr "poisson" cfg &&
     CheckAttr "young" cfg && CheckAttr "thickness" cfg then
    some ⟨attrNum "poisson" cfg, attrNum "young" cfg,
          attrNum "thickness" cfg, attrNum "damping" cfg⟩
  else
    none

/-- The per-instance mutable state Membrane::Compute touches: the
previous-length snapshot `prev` and the elongation buffer (both
std::vector of mjtNum). -/
structure CState where
  prev : List ℚ
  elongation : List ℚ

/-- The lazy initialization of lines 172-175: when `prev` is empty it is
filled with a copy of the first ne reference lengths; otherwise it is left
as is. -/
def prevInit (ne : ℕ) (ref : ℕ → ℚ) (prev : List ℚ) : List ℚ :=
  if prev.isEmpty then (List.range ne).map ref else prev

/-- The state-relevant part of Membrane::Compute (lines 164-200):
kD = damping / timestep (line 165); lazy init of prev (lines 172-175);
the elongation of edge idx is
`deformed²  − ref² + (deformed² − prev²) * kD` (lines 181-184);
and prev is overwritten with the deformed lengths only when kD > 0
(lines 196-199).  `deformed` and `ref` are the host-owned length arrays
the function indexes with 0 ≤ idx < ne. -/
def Compute (damping timestep : ℚ) (deformed ref : ℕ → ℚ) (ne : ℕ)
    (s : CState) : CState :=
  let kD := damping / timestep
  let prev0 := prevInit ne ref s.prev
  { prev := if 0 < kD then (List.range ne).map deformed else prev0,
    elongation := (List.range ne).map fun idx =>
      deformed idx * deformed idx - ref idx * ref idx +
      (deformed idx * deformed idx - prev0.getD idx 0 * prev0.getD idx 0) * kD }

/-- Modelled from the spec: ComputeForce (elasticity.h, not among the
sources) contracts each element's stiffness tensor with the elongations of
that element's own edges and scatters per-vertex gradient contributions
into the force buffer; so each accumulated force component is a sum of
terms metric(t,e1,e2) · elongation(edge of t at e2) · (geometric gradient
factor).  This evaluates one component of the accumulated buffer. -/
def ComputeForce (nelem : ℕ) (metric : ℕ → Fin 3 → Fin 3 → ℚ)
    (edgeIdx : ℕ → Fin 3 → ℕ) (elong : List ℚ) (grad : ℕ → Fin 3 → ℚ) : ℚ :=
  ∑ t ∈ Finset.range nelem, ∑ e1 : Fin 3, ∑ e2 : Fin 3,
    metric t e1 e2 * elong.getD (edgeIdx t e2) 0 * grad t e1

/-- The states of one plugin instance reachable from construction: the
constructor leaves `prev` empty and `elongation` zero-filled (lines
159-161), and every simulation step applies Compute with the instance's
fixed damping and some host-supplied timestep and length arrays. -/
inductive Reachable (ne : ℕ) (damping : ℚ) : CState → Prop where
  | init : Reachable ne damping ⟨[], List.replicate ne 0⟩
  | step (s : CState) (timestep : ℚ) (deformed ref : ℕ → ℚ) :
      Reachable ne damping s →
      Reachable ne damping (Compute damping timestep deformed ref ne s)

/-- A concrete configuration whose four checked attributes are present and
numeric but whose "damping" (and "edge") attributes are missing. -/
def cfgNoDamping : Config := fun name =>
  if name = "face" then some (some 0)
  else if name = "poisson" then some (some (3 / 10))
  else if name = "young" then some (some 1000)
  else if name = "thickness" then some (some (1 / 100))
  else none

/-- A concrete model in which every flex vertex is attached to body 0 (the
world), and body 0 carries no plugin (body_plugin = −1). -/
def cexM : FlexModel :=
  ⟨fun b => if b = 0 then -1 else 7, fun _ => 0⟩

end Membrane

namespace Membrane

/-- Reading a list built by mapping over List.range at an in-range index. -/
theorem getD_range_map (f : ℕ → ℚ) {n i : ℕ} (h : i < n) :
    ((List.range n).map f).getD i 0 = f i := by
  rw [List.getD_eq_getElem?_getD, List.getElem?_map, List.getElem?_range h]
  rfl

/-- Reading a zero-filled list yields 0 at every index. -/
theorem getD_replicate_zero (n i : ℕ) :
    (List.replicate n (0 : ℚ)).getD i 0 = 0 := by
  rw [List.getD_eq_getElem?_getD, List.getElem?_replicate]
  split <;> rfl

/-- A populated snapshot is never re-initialized by the lazy init. -/
theorem prevInit_of_ne_nil {ne : ℕ} {ref : ℕ → ℚ} {l : List ℚ} (h : l ≠ []) :
    prevInit ne ref l = l := by
  cases l with
  | nil => exact absurd rfl h
  | cons a t => rfl

/-- C7: for every edge pair and every geometry, the 3×3 basis tensor
produced by ComputeBasis is exactly symmetric: entry (i,j) equals entry
(j,i), by construction as a symmetrized outer product; in particular this
holds for the unit normal and nonzero area the source supplies. -/
theorem basis_symmetric_C7 (normal edgesL edgesR : Vec3) (area : ℚ)
    (i j : Fin 3) :
    ComputeBasis normal edgesL edgesR area i j =
    ComputeBasis normal edgesL edgesR area j i := by
  unfold ComputeBasis
  ring

/-- C2: mu and la as computed on lines 139-140 are linear in thickness:
with geometry (volume and the basis tensors) and the material constants E,
nu held fixed, doubling the thickness exactly doubles mu, doubles la, and
doubles every entry of the assembled stiffness tensor. -/
theorem stiffness_linear_in_thickness_C2 (E nu volume thickness : ℚ)
    (b1 b2 : Fin 3 → Fin 3 → ℚ) :
    mu E nu volume (2 * thickness) = 2 * mu E nu volume thickness ∧
    la E nu volume (2 * thickness) = 2 * la E nu volume thickness ∧
    metricEntry (mu E nu volume (2 * thickness)) (la E nu volume (2 * thickness)) b1 b2 =
      2 * metricEntry (mu E nu volume thickness) (la E nu volume thickness) b1 b2 := by
  refine ⟨by unfold mu; ring, by unfold la; ring, ?_⟩
  unfold metricEntry mu la
  ring

/-- C1: in every evaluation step the elongation of every tracked edge idx
equals `deformed² − reference² + (deformed² − previous²) * (damping/timestep)`,
where the previous length is the one the lazy-initialized snapshot holds;
and when damping = 0 it equals exactly `deformed² − reference²`, for any
deformed, reference and previous lengths. -/
theorem elongation_formula_C1 (damping timestep : ℚ) (deformed ref : ℕ → ℚ)
    (ne : ℕ) (s : CState) (idx : ℕ) (h : idx < ne) :
    (Compute damping timestep deformed ref ne s).elongation.getD idx 0 =
      deformed idx * deformed idx - ref idx * ref idx +
      (deformed idx * deformed idx -
        (prevInit ne ref s.prev).getD idx 0 * (prevInit ne ref s.prev).getD idx 0) *
        (damping / timestep) ∧
    (damping = 0 →
      (Compute damping timestep deformed ref ne s).elongation.getD idx 0 =
        deformed idx * deformed idx - ref idx * ref idx) := by
  have hmain :
      (Compute damping timestep deformed ref ne s).elongation.getD idx 0 =
        deformed idx * deformed idx - ref idx * ref idx +
        (deformed idx * deformed idx -
          (prevInit ne ref s.prev).getD idx 0 * (prevInit ne ref s.prev).getD idx 0) *
          (damping / timestep) := by
    simp only [Compute]
    exact getD_range_map _ h
  refine ⟨hmain, fun h0 => ?_⟩
  rw [hmain, h0, zero_div, mul_zero, add_zero]

theorem elongation_formula_C1_witness :
    (0 : ℕ) < 1 ∧
    ((Compute 0 1 (fun _ => 2) (fun _ => 1) 1 ⟨[], []⟩).elongation.getD 0 0 =
      (2 : ℚ) * 2 - 1 * 1 +
      (2 * 2 - (prevInit 1 (fun _ => 1) []).getD 0 0 *
        (prevInit 1 (fun _ => 1) []).getD 0 0) * (0 / 1) ∧
    ((0 : ℚ) = 0 →
      (Compute 0 1 (fun _ => 2) (fun _ => 1) 1 ⟨[], []⟩).elongation.getD 0 0 =
        (2 : ℚ) * 2 - 1 * 1)) :=
  ⟨by decide,
   elongation_formula_C1 0 1 (fun _ => 2) (fun _ => 1) 1 ⟨[], []⟩ 0 (by decide)⟩

/-- C3 counterexample: a configuration whose attributes face, poisson,
young and thickness are present and numeric while damping and edge are
missing; Create nevertheless returns an instance (with damping read as 0),
so construction does not fail although a material attribute is missing. -/
theorem create_missing_damping_cex_C3 :
    cfgNoDamping "damping" = none ∧ cfgNoDamping "edge" = none ∧
    Create cfgNoDamping = some ⟨3 / 10, 1000, 1 / 100, 0⟩ :=
  ⟨rfl, rfl, rfl⟩

/-- C3 amended: construction fails (Create returns no instance) exactly
when one of face, poisson, young or thickness is missing or unparseable;
damping is read leniently (missing or unparseable yields 0) and edge is
not validated at all. -/
theorem create_validates_C3_amended (cfg : Config) :
    (Create cfg).isSome =
      (CheckAttr "face" cfg && CheckAttr "poisson" cfg &&
       CheckAttr "young" cfg && CheckAttr "thickness" cfg) ∧
    ((CheckAttr "face" cfg && CheckAttr "poisson" cfg &&
      CheckAttr "young" cfg && CheckAttr "thickness" cfg) = false →
      Create cfg = none) := by
  by_cases hc : (CheckAttr "face" cfg && CheckAttr "poisson" cfg &&
      CheckAttr "young" cfg && CheckAttr "thickness" cfg) = true
  · rw [Create, if_pos hc]
    exact ⟨by rw [hc]; rfl, fun hfalse => absurd hc (by rw [hfalse]; exact Bool.false_ne_true)⟩
  · rw [Create, if_neg hc]
    exact ⟨by rw [Bool.eq_false_iff.mpr hc]; rfl, fun _ => rfl⟩

/-- C4: on the very first evaluation (prev empty) the snapshot is
initialized as a full copy of the reference lengths, so the previous
length used for damping equals the reference length at every edge; after
any evaluation of a nonempty edge set the snapshot is nonempty, and a
nonempty snapshot is never re-initialized, so the initialization happens
only once. -/
theorem lazy_init_C4 (ne : ℕ) (deformed ref : ℕ → ℚ)
    (damping timestep : ℚ) (s : CState) (h : s.prev = []) :
    prevInit ne ref s.prev = (List.range ne).map ref ∧
    (∀ idx, idx < ne → (prevInit ne ref s.prev).getD idx 0 = ref idx) ∧
    (0 < ne → (Compute damping timestep deformed ref ne s).prev ≠ []) ∧
    (∀ t : CState, t.prev ≠ [] → prevInit ne ref t.prev = t.prev) := by
  have e1 : prevInit ne ref s.prev = (List.range ne).map ref := by
    rw [h]; rfl
  refine ⟨e1, fun idx hidx => ?_, fun hne => ?_, fun t ht => prevInit_of_ne_nil ht⟩
  · rw [e1]; exact getD_range_map ref hidx
  · have hlen : ∀ g : ℕ → ℚ, (List.range ne).map g ≠ [] := by
      intro g hnil
      have := congrArg List.length hnil
      simp at this
      omega
    by_cases hk : 0 < damping / timestep
    · simp only [Compute, if_pos hk]
      exact hlen deformed
    · simp only [Compute, if_neg hk]
      rw [e1]
      exact hlen ref

theorem lazy_init_C4_witness :
    ((⟨[], []⟩ : CState).prev = []) ∧
    (prevInit 1 (fun _ => 4) (⟨[], []⟩ : CState).prev =
      (List.range 1).map (fun _ => 4) ∧
    (∀ idx, idx < 1 →
      (prevInit 1 (fun _ => 4) (⟨[], []⟩ : CState).prev).getD idx 0 = 4) ∧
    (0 < 1 → (Compute 0 1 (fun _ => 5) (fun _ => 4) 1 ⟨[], []⟩).prev ≠ []) ∧
    (∀ t : CState, t.prev ≠ [] → prevInit 1 (fun _ => 4) t.prev = t.prev)) :=
  ⟨rfl, lazy_init_C4 1 (fun _ => 5) (fun _ => 4) 0 1 ⟨[], []⟩ rfl⟩

/-- C5: with a positive timestep and an already-initialized snapshot, the
snapshot is overwritten with this step's deformed lengths exactly when the
damping coefficient is positive, and it is left unchanged by the step
whenever damping is zero (or negative). -/
theorem prev_update_C5 (ne : ℕ) (deformed ref : ℕ → ℚ) (damping timestep : ℚ)
    (s : CState) (hts : 0 < timestep) (hprev : s.prev ≠ []) :
    (0 < damping →
      (Compute damping timestep deformed ref ne s).prev =
        (List.range ne).map deformed) ∧
    (damping ≤ 0 →
      (Compute damping timestep deformed ref ne s).prev = s.prev) := by
  constructor
  · intro hd
    have hk : 0 < damping / timestep := div_pos hd hts
    simp only [Compute, if_pos hk]
  · intro hd
    have hk : ¬ 0 < damping / timestep := by
      have hle : damping / timestep ≤ 0 :=
        div_nonpos_iff.mpr (Or.inr ⟨hd, le_of_lt hts⟩)
      exact not_lt.mpr hle
    simp only [Compute, if_neg hk]
    exact prevInit_of_ne_nil hprev

theorem prev_update_C5_witness :
    (0 : ℚ) < 1 ∧ (⟨[3], [0]⟩ : CState).prev ≠ [] ∧
    (((0 : ℚ) < 1 →
      (Compute 1 1 (fun _ => 7) (fun _ => 3) 1 ⟨[3], [0]⟩).prev =
        (List.range 1).map (fun _ => 7)) ∧
    ((1 : ℚ) ≤ 0 →
      (Compute 1 1 (fun _ => 7) (fun _ => 3) 1 ⟨[3], [0]⟩).prev = [3])) :=
  ⟨by norm_num, by decide,
   prev_update_C5 1 (fun _ => 7) (fun _ => 3) 1 1 ⟨[3], [0]⟩ (by norm_num) (by decide)⟩

/-- C6 counterexample: in a model whose flex vertices are all attached to
body 0 and where body 0 carries no plugin (body_plugin = −1 ≠ 5), a
triangle vertex belongs to a body whose plugin instance differs from the
one being constructed, yet the scan passes and the element's stiffness
tensor is produced: construction does not abort. -/
theorem world_vertex_no_abort_cex_C6 :
    cexM.body_plugin (cexM.vertbody 0) ≠ (5 : Int) ∧
    (processElem cexM 5 (fun i => (i : ℕ)) (fun _ _ => 0) (fun _ _ => 0)
      1 1 (3 / 10) (1 / 100)).isSome = true := by
  constructor
  · decide
  · rw [processElem, if_pos (by decide)]
    rfl

/-- C6 amended: the constructor loop aborts (producing no stiffness tensor
for the element) exactly when some triangle vertex has a nonzero body id
whose body's plugin instance differs from the one being constructed;
vertices attached to body 0 (the world body) are exempt from the check. -/
theorem scan_abort_iff_C6_amended (m : FlexModel) (inst : Int) (v : Fin 3 → ℕ)
    (x : ℕ → Vec3) (normals : Fin 3 → Vec3) (volume E nu thickness : ℚ) :
    processElem m inst v x normals volume E nu thickness = none ↔
    ∃ i : Fin 3, m.vertbody (v i) ≠ 0 ∧
      m.body_plugin (m.vertbody (v i)) ≠ inst := by
  by_cases h : elemScanOk m inst v = true
  · rw [processElem, if_pos h]
    constructor
    · intro hc; cases hc
    · rintro ⟨i, hi1, hi2⟩
      have hall := of_decide_eq_true h
      rcases hall i with h0 | h0
      · exact absurd h0 hi1
      · exact absurd h0 hi2
  · rw [processElem, if_neg h]
    constructor
    · intro _
      have hnall : ¬ ∀ i : Fin 3,
          m.vertbody (v i) = 0 ∨ m.body_plugin (m.vertbody (v i)) = inst := by
        intro hall
        exact h (decide_eq_true hall)
      push_neg at hnall
      exact hnall
    · intro _
      rfl

/-- C8: when every deformed length equals its reference length and the
(lazily initialized) previous length equals the reference length at every
edge, every edge's elongation is 0 and every accumulated force component
is 0, regardless of the damping coefficient and the timestep. -/
theorem rest_state_zero_C8 (damping timestep : ℚ) (deformed ref : ℕ → ℚ)
    (ne : ℕ) (s : CState)
    (hdr : ∀ idx, deformed idx = ref idx)
    (hp : ∀ idx, idx < ne → (prevInit ne ref s.prev).getD idx 0 = ref idx) :
    (Compute damping timestep deformed ref ne s).elongation =
      List.replicate ne 0 ∧
    (∀ nelem metric edgeIdx grad,
      ComputeForce nelem metric edgeIdx
        (Compute damping timestep deformed ref ne s).elongation grad = 0) := by
  have helong : (Compute damping timestep deformed ref ne s).elongation =
      List.replicate ne 0 := by
    simp only [Compute]
    rw [List.eq_replicate_iff]
    refine ⟨by simp, ?_⟩
    intro b hb
    rw [List.mem_map] at hb
    obtain ⟨i, hi, rfl⟩ := hb
    rw [List.mem_range] at hi
    rw [hdr i, hp i hi]
    ring
  refine ⟨helong, fun nelem metric edgeIdx grad => ?_⟩
  rw [helong]
  unfold ComputeForce
  refine Finset.sum_eq_zero fun t _ => ?_
  refine Finset.sum_eq_zero fun e1 _ => ?_
  refine Finset.sum_eq_zero fun e2 _ => ?_
  rw [getD_replicate_zero, mul_zero, zero_mul]

theorem rest_state_zero_C8_witness :
    (∀ idx : ℕ, (fun _ : ℕ => (2 : ℚ)) idx = (fun _ : ℕ => (2 : ℚ)) idx) ∧
    (∀ idx, idx < 1 →
      (prevInit 1 (fun _ => (2 : ℚ)) (⟨[2], [0]⟩ : CState).prev).getD idx 0 = 2) ∧
    ((Compute 5 (1 / 2) (fun _ => 2) (fun _ => 2) 1 ⟨[2], [0]⟩).elongation =
      List.replicate 1 0 ∧
    (∀ nelem metric edgeIdx grad,
      ComputeForce nelem metric edgeIdx
        (Compute 5 (1 / 2) (fun _ => 2) (fun _ => 2) 1 ⟨[2], [0]⟩).elongation
        grad = 0)) :=
  ⟨fun _ => rfl, by decide,
   rest_state_zero_C8 5 (1 / 2) (fun _ => 2) (fun _ => 2) 1 ⟨[2], [0]⟩
     (fun _ => rfl) (by decide)⟩

/-- C9: in every state reachable from construction, the previous-length
snapshot is either empty (uninitialized) or holds exactly one entry per
tracked edge; no operation leaves it in a partial state. -/
theorem prev_size_invariant_C9 {ne : ℕ} {damping : ℚ} {s : CState}
    (h : Reachable ne damping s) : s.prev = [] ∨ s.prev.length = ne := by
  induction h with
  | init => exact Or.inl rfl
  | step s timestep deformed ref hr ih =>
    right
    by_cases hk : 0 < damping / timestep
    · simp only [Compute, if_pos hk]
      simp
    · simp only [Compute, if_neg hk]
      unfold prevInit
      by_cases hp : s.prev.isEmpty
      · rw [if_pos hp]
        simp
      · rw [if_neg hp]
        rcases ih with hnil | hlen
        · rw [hnil] at hp
          exact absurd rfl hp
        · exact hlen

theorem prev_size_invariant_C9_witness :
    (Compute 1 1 (fun _ => 6) (fun _ => 2) 2 ⟨[], List.replicate 2 0⟩).prev = [] ∨
    (Compute 1 1 (fun _ => 6) (fun _ => 2) 2 ⟨[], List.replicate 2 0⟩).prev.length = 2 :=
  prev_size_invariant_C9
    (Reachable.step ⟨[], List.replicate 2 0⟩ 1 (fun _ => 6) (fun _ => 2)
      Reachable.init)

/-- C10: the fatal topology error is raised only for a vertex whose body
id is nonzero and whose body's plugin instance differs from the one being
constructed: the scan passes exactly when every vertex with a nonzero body
id belongs to the plugin, so world-attached vertices (body 0) never abort
construction. -/
theorem world_exemption_C10 (m : FlexModel) (inst : Int) (v : Fin 3 → ℕ) :
    elemScanOk m inst v = true ↔
    ∀ i : Fin 3, m.vertbody (v i) ≠ 0 →
      m.body_plugin (m.vertbody (v i)) = inst := by
  unfold elemScanOk
  rw [decide_eq_true_eq]
  constructor
  · intro h i hi
    rcases h i with h0 | h0
    · exact absurd h0 hi
    · exact h0
  · intro h i
    by_cases h0 : m.vertbody (v i) = 0
    · exact Or.inl h0
    · exact Or.inr (h i h0)

end Membrane
